import Mathlib

/-!
Verification development for the subtitle markup parser in
src/modules/codec/subsdec.c (functions AppendCharacter, ConsumeAttribute,
GetColor, DuplicateAndPushStyle, PopStyle, NewTextSegmentPushStyle,
NewTextSegmentPopStyle, ParseSubtitles).

The embedding works on the remaining input as a `List Char` (the C cursor
`psz_subtitle` is the suffix still to be scanned; the terminating NUL of the C
string corresponds to the end of the list).  Allocation is modelled by an
oracle `Nat → Bool`: the n-th allocation of the run succeeds iff the oracle is
true at n; the state carries the allocation counter.  A NULL-pointer
dereference of the C code is modelled by an explicit crash outcome.
-/

set_option maxRecDepth 20000

namespace Subsdec

/-- Reading the byte at offset `i` from the cursor.  Offsets at or past the
end of the remaining input yield the NUL byte (offset = length is the
terminator itself; larger offsets are past the buffer, see claim C10, but the
value read there never influences control flow because every such test is
conjoined with a test that fails on the empty remainder). -/
def cidx (l : List Char) (i : Nat) : Char := l.getD i '\x00'

/-- C `tolower` in the default locale, restricted to ASCII. -/
def asciiLower (c : Char) : Char :=
  if 'A' ≤ c ∧ c ≤ 'Z' then Char.ofNat (c.toNat + 32) else c

/-- C `isalpha` in the default locale. -/
def isAlphaC (c : Char) : Bool :=
  ('a' ≤ c && c ≤ 'z') || ('A' ≤ c && c ≤ 'Z')

/-- C `isspace` in the default locale. -/
def isSpaceC (c : Char) : Bool :=
  c == ' ' || c == '\t' || c == '\n' || c == '\x0b' || c == '\x0c' || c == '\r'

/-- C `isdigit`. -/
def isDigitC (c : Char) : Bool := '0' ≤ c && c ≤ '9'

/-- `strncasecmp(s1, s2, n) == 0` where `s1` is the remaining input and `s2`
a NUL-free pattern: equal up to `n` characters, stopping at the NUL
terminator (list end) on either side. -/
def strncaseeqC : List Char → List Char → Nat → Bool
  | _, _, 0 => true
  | [], [], _ + 1 => true
  | [], _ :: _, _ + 1 => false
  | _ :: _, [], _ + 1 => false
  | a :: t, b :: p, n + 1 => (asciiLower a == asciiLower b) && strncaseeqC t p n

/-- `strncasecmp(l, p, p.length) == 0`: `l` starts (case-insensitively) with
pattern `p`. -/
def startsWithCI : List Char → List Char → Bool
  | _, [] => true
  | [], _ :: _ => false
  | a :: t, b :: p => (asciiLower a == asciiLower b) && startsWithCI t p

/-- `strncmp(l, p, p.length) == 0`: `l` starts with pattern `p` (case
sensitive). -/
def startsWithEq : List Char → List Char → Bool
  | _, [] => true
  | [], _ :: _ => false
  | a :: t, b :: p => (a == b) && startsWithEq t p

/-- `strchr(l, c)`: position of the first occurrence of `c`. -/
def strchrPos : List Char → Char → Option Nat
  | [], _ => none
  | a :: t, c => if a = c then some 0 else (strchrPos t c).map (· + 1)

/-- Full case-insensitive string equality, `strcasecmp(a, b) == 0`. -/
def strcaseeq : List Char → List Char → Bool
  | [], [] => true
  | a :: t, b :: p => (asciiLower a == asciiLower b) && strcaseeq t p
  | _, _ => false

/-- C `atoi` (sign and leading-space handling; overflow ignored, which no
claim exercises). -/
def atoiC (s : String) : Int :=
  let l := s.data.dropWhile isSpaceC
  let digVal : List Char → Int := fun d =>
    (d.takeWhile isDigitC).foldl (fun a c => a * 10 + (c.toNat - '0'.toNat : Int)) 0
  match l with
  | '-' :: rest => - digVal rest
  | '+' :: rest => digVal rest
  | _ => digVal l

/-! Style flag bits and alignment bits.  Modelled from the spec: the
constants STYLE_* (include/vlc_text_style.h) and SUBPICTURE_ALIGN_*
(include/vlc_subpicture.h) are declared in headers that are not under src/;
the values are the bit masks those headers assign. -/

def STYLE_BOLD : Nat := 1
def STYLE_ITALIC : Nat := 2
def STYLE_UNDERLINE : Nat := 32
def STYLE_STRIKEOUT : Nat := 64

def SUBPICTURE_ALIGN_LEFT : Nat := 1
def SUBPICTURE_ALIGN_RIGHT : Nat := 2
def SUBPICTURE_ALIGN_TOP : Nat := 4
def SUBPICTURE_ALIGN_BOTTOM : Nat := 8

/-- The `text_style_t` attribute bag (vlc_text_style.h), restricted to the
fields subsdec.c touches.  `none` is the "default / unset" value of an
optional field. -/
structure TextStyle where
  i_style_flags : Nat
  psz_fontname : Option String
  psz_monofontname : Option String
  i_font_size : Option Int
  i_font_color : Option Nat
  i_outline_color : Option Nat
  i_shadow_color : Option Nat
  i_background_color : Option Nat
  i_outline_width : Option Int
  i_shadow_width : Option Int
  i_font_alpha : Option Int
deriving Repr, DecidableEq

/-- Modelled from the spec: `text_style_New` (src/misc/text_style.c is not
under src/) produces a default style with no flags set and all attributes
unset. -/
def defaultStyle : TextStyle :=
  ⟨0, none, none, none, none, none, none, none, none, none, none⟩

/-- One `text_segment_t` node: owned text and an optional owned style.
Modelled from the spec: `text_segment_New` (src/misc/text_style.c is not
under src/) creates a segment with empty text, per spec section 4.4
("allocates a new empty-text segment"). -/
structure TextSegment where
  psz_text : String
  style : Option TextStyle
deriving Repr, DecidableEq

/-- The mutable state of one `ParseSubtitles` run.  `prev` holds the
already-closed segments of the chain in reverse order; `cur` is
`p_segment` (the tail of the chain), `none` when that pointer is NULL.
`stack` is the style stack (head = top); each entry aliases the style owned
by the segment created when it was pushed.  `align`/`hasAlign` are
`*pi_align` and `b_has_align`.  `cnt` counts allocations performed so far
(the index fed to the allocation oracle). -/
structure LState where
  prev : List TextSegment
  cur : Option TextSegment
  stack : List TextStyle
  align : Nat
  hasAlign : Bool
  cnt : Nat
deriving Repr, DecidableEq

/-- The chain `p_first_segment` links to, in order. -/
def chainOf (st : LState) : List TextSegment :=
  match st.cur with
  | some c => (c :: st.prev).reverse
  | none => st.prev.reverse

/-- Draw one allocation from the oracle. -/
def allocOne (oracle : Nat → Bool) (st : LState) : Bool × LState :=
  (oracle st.cnt, { st with cnt := st.cnt + 1 })

/-- `AppendCharacter` (subsdec.c lines 648-656) on one segment: `ok` is the
success of the `asprintf` allocation.  On success the text grows by exactly
the one character; on failure the function returns false and leaves the
segment untouched. -/
def AppendCharacter (ok : Bool) (seg : TextSegment) (c : Char) : Bool × TextSegment :=
  if ok then (true, { seg with psz_text := seg.psz_text.push c })
  else (false, seg)

/-- `AppendCharacter( p_segment, c )` on the state: dereferences `p_segment`
(crash, modelled as `none`, when it is NULL), otherwise draws one allocation
and applies `AppendCharacter`. -/
def appendCur (oracle : Nat → Bool) (st : LState) (c : Char) : Option (Bool × LState) :=
  match st.cur with
  | none => none
  | some seg =>
    let (ok, st1) := allocOne oracle st
    let (b, seg1) := AppendCharacter ok seg c
    some (b, { st1 with cur := some seg1 })

/-- The style `text_style_Duplicate`/`text_style_New` copies on a push or a
pop: the top of the stack, or the default style on the empty stack. -/
def dupTop (stack : List TextStyle) : TextStyle :=
  match stack with | s :: _ => s | [] => defaultStyle

/-- `DuplicateAndPushStyle` (lines 739-755): allocate the duplicate of the
top of stack (or a fresh default style), then the stack frame; on frame
allocation failure the duplicate is freed again.  Returns the style handed
to the caller (`none` on failure, as the C function returns NULL), whether
it was actually pushed, and the new state. -/
def DuplicateAndPushStyle (oracle : Nat → Bool) (st : LState) :
    Option TextStyle × Bool × LState :=
  let (ok1, st1) := allocOne oracle st
  if ok1 then
    let dup := dupTop st1.stack
    let (ok2, st2) := allocOne oracle st1
    if ok2 then (some dup, true, { st2 with stack := dup :: st2.stack })
    else (none, false, st2)
  else (none, false, st1)

/-- Record the old `p_segment` as an interior chain node. -/
def shiftCur (st : LState) : List TextSegment :=
  match st.cur with
  | some c => c :: st.prev
  | none => st.prev

/-- `NewTextSegmentPushStyle` (lines 765-774).  `text_segment_New` first; if
it fails the function returns NULL and the caller's `p_segment` becomes
NULL.  Otherwise the style is pushed and the new node is linked after the
old `p_segment` - a NULL dereference (crash, `Except.error`) when that is
NULL.  On success the returned Bool says whether the new segment's style is
the one sitting on top of the stack (needed because flag stores through
`p_segment->style` also mutate that aliased stack top). -/
def NewTextSegmentPushStyle (oracle : Nat → Bool) (st : LState) :
    Except LState (Bool × LState) :=
  let (ok, st1) := allocOne oracle st
  if ok then
    let (styleOpt, pushed, st2) := DuplicateAndPushStyle oracle st1
    match st2.cur with
    | none => .error st2
    | some _ =>
      .ok (pushed, { st2 with prev := shiftCur st2, cur := some ⟨"", styleOpt⟩ })
  else .ok (false, { st1 with prev := shiftCur st1, cur := none })

/-- `PopStyle` (lines 757-763): `*pp_stack = p_old->p_next` dereferences the
head frame, a NULL dereference when the stack is empty (there is no guard in
the source). -/
def PopStyle (stack : List TextStyle) : Option (List TextStyle) :=
  match stack with
  | [] => none
  | _ :: t => some t

/-- `NewTextSegmentPopStyle` (lines 776-788): allocate the segment (NULL on
failure, without touching the stack), `PopStyle` (crash on the empty stack),
duplicate the new top or synthesize a default, link after `p_segment`. -/
def NewTextSegmentPopStyle (oracle : Nat → Bool) (st : LState) : Except LState LState :=
  let (ok, st1) := allocOne oracle st
  if ok then
    match st1.stack with
    | [] => .error st1
    | _ :: rest =>
      let st2 := { st1 with stack := rest }
      let (ok2, st3) := allocOne oracle st2
      let styleOpt := if ok2 then some (dupTop rest) else none
      match st3.cur with
      | none => .error st3
      | some _ =>
        .ok { st3 with prev := shiftCur st3, cur := some ⟨"", styleOpt⟩ }
  else .ok { st1 with prev := shiftCur st1, cur := none }

/-- A store through `p_segment->style->...`: crash when `p_segment` or its
style is NULL; when the style is aliased by the stack top the stored value
is visible there as well. -/
def mutateCurStyle (aliased : Bool) (f : TextStyle → TextStyle) (st : LState) :
    Except LState LState :=
  match st.cur with
  | none => .error st
  | some seg =>
    match seg.style with
    | none => .error st
    | some sty =>
      let sty1 := f sty
      let st1 := { st with cur := some { seg with style := some sty1 } }
      if aliased then
        .ok { st1 with stack := match st1.stack with | _ :: t => sty1 :: t | [] => [] }
      else .ok st1

/-- The compound `p_segment = NewTextSegmentPushStyle(...);
p_segment->style->i_style_flags |= flag;` used by the b/i/u/s and Y branches. -/
def pushFlagE (oracle : Nat → Bool) (flag : Nat) (st : LState) : Except LState LState :=
  match NewTextSegmentPushStyle oracle st with
  | .error s => .error s
  | .ok (aliased, st1) =>
    mutateCurStyle aliased
      (fun sty => { sty with i_style_flags := sty.i_style_flags ||| flag }) st1

/-- The static color table `p_html_colors` (subsdec.c lines 165-337), in
source order, duplicates included. -/
def p_html_colors : List (String × Nat) := [
  ("Aqua", 0x00FFFF),
  ("Black", 0x000000),
  ("Blue", 0x0000FF),
  ("Fuchsia", 0xFF00FF),
  ("Gray", 0x808080),
  ("Green", 0x008000),
  ("Lime", 0x00FF00),
  ("Maroon", 0x800000),
  ("Navy", 0x000080),
  ("Olive", 0x808000),
  ("Purple", 0x800080),
  ("Red", 0xFF0000),
  ("Silver", 0xC0C0C0),
  ("Teal", 0x008080),
  ("White", 0xFFFFFF),
  ("Yellow", 0xFFFF00),
  ("AliceBlue", 0xF0F8FF),
  ("AntiqueWhite", 0xFAEBD7),
  ("Aqua", 0x00FFFF),
  ("Aquamarine", 0x7FFFD4),
  ("Azure", 0xF0FFFF),
  ("Beige", 0xF5F5DC),
  ("Bisque", 0xFFE4C4),
  ("Black", 0x000000),
  ("BlanchedAlmond", 0xFFEBCD),
  ("Blue", 0x0000FF),
  ("BlueViolet", 0x8A2BE2),
  ("Brown", 0xA52A2A),
  ("BurlyWood", 0xDEB887),
  ("CadetBlue", 0x5F9EA0),
  ("Chartreuse", 0x7FFF00),
  ("Chocolate", 0xD2691E),
  ("Coral", 0xFF7F50),
  ("CornflowerBlue", 0x6495ED),
  ("Cornsilk", 0xFFF8DC),
  ("Crimson", 0xDC143C),
  ("Cyan", 0x00FFFF),
  ("DarkBlue", 0x00008B),
  ("DarkCyan", 0x008B8B),
  ("DarkGoldenRod", 0xB8860B),
  ("DarkGray", 0xA9A9A9),
  ("DarkGrey", 0xA9A9A9),
  ("DarkGreen", 0x006400),
  ("DarkKhaki", 0xBDB76B),
  ("DarkMagenta", 0x8B008B),
  ("DarkOliveGreen", 0x556B2F),
  ("Darkorange", 0xFF8C00),
  ("DarkOrchid", 0x9932CC),
  ("DarkRed", 0x8B0000),
  ("DarkSalmon", 0xE9967A),
  ("DarkSeaGreen", 0x8FBC8F),
  ("DarkSlateBlue", 0x483D8B),
  ("DarkSlateGray", 0x2F4F4F),
  ("DarkSlateGrey", 0x2F4F4F),
  ("DarkTurquoise", 0x00CED1),
  ("DarkViolet", 0x9400D3),
  ("DeepPink", 0xFF1493),
  ("DeepSkyBlue", 0x00BFFF),
  ("DimGray", 0x696969),
  ("DimGrey", 0x696969),
  ("DodgerBlue", 0x1E90FF),
  ("FireBrick", 0xB22222),
  ("FloralWhite", 0xFFFAF0),
  ("ForestGreen", 0x228B22),
  ("Fuchsia", 0xFF00FF),
  ("Gainsboro", 0xDCDCDC),
  ("GhostWhite", 0xF8F8FF),
  ("Gold", 0xFFD700),
  ("GoldenRod", 0xDAA520),
  ("Gray", 0x808080),
  ("Grey", 0x808080),
  ("Green", 0x008000),
  ("GreenYellow", 0xADFF2F),
  ("HoneyDew", 0xF0FFF0),
  ("HotPink", 0xFF69B4),
  ("IndianRed", 0xCD5C5C),
  ("Indigo", 0x4B0082),
  ("Ivory", 0xFFFFF0),
  ("Khaki", 0xF0E68C),
  ("Lavender", 0xE6E6FA),
  ("LavenderBlush", 0xFFF0F5),
  ("LawnGreen", 0x7CFC00),
  ("LemonChiffon", 0xFFFACD),
  ("LightBlue", 0xADD8E6),
  ("LightCoral", 0xF08080),
  ("LightCyan", 0xE0FFFF),
  ("LightGoldenRodYellow", 0xFAFAD2),
  ("LightGray", 0xD3D3D3),
  ("LightGrey", 0xD3D3D3),
  ("LightGreen", 0x90EE90),
  ("LightPink", 0xFFB6C1),
  ("LightSalmon", 0xFFA07A),
  ("LightSeaGreen", 0x20B2AA),
  ("LightSkyBlue", 0x87CEFA),
  ("LightSlateGray", 0x778899),
  ("LightSlateGrey", 0x778899),
  ("LightSteelBlue", 0xB0C4DE),
  ("LightYellow", 0xFFFFE0),
  ("Lime", 0x00FF00),
  ("LimeGreen", 0x32CD32),
  ("Linen", 0xFAF0E6),
  ("Magenta", 0xFF00FF),
  ("Maroon", 0x800000),
  ("MediumAquaMarine", 0x66CDAA),
  ("MediumBlue", 0x0000CD),
  ("MediumOrchid", 0xBA55D3),
  ("MediumPurple", 0x9370D8),
  ("MediumSeaGreen", 0x3CB371),
  ("MediumSlateBlue", 0x7B68EE),
  ("MediumSpringGreen", 0x00FA9A),
  ("MediumTurquoise", 0x48D1CC),
  ("MediumVioletRed", 0xC71585),
  ("MidnightBlue", 0x191970),
  ("MintCream", 0xF5FFFA),
  ("MistyRose", 0xFFE4E1),
  ("Moccasin", 0xFFE4B5),
  ("NavajoWhite", 0xFFDEAD),
  ("Navy", 0x000080),
  ("OldLace", 0xFDF5E6),
  ("Olive", 0x808000),
  ("OliveDrab", 0x6B8E23),
  ("Orange", 0xFFA500),
  ("OrangeRed", 0xFF4500),
  ("Orchid", 0xDA70D6),
  ("PaleGoldenRod", 0xEEE8AA),
  ("PaleGreen", 0x98FB98),
  ("PaleTurquoise", 0xAFEEEE),
  ("PaleVioletRed", 0xD87093),
  ("PapayaWhip", 0xFFEFD5),
  ("PeachPuff", 0xFFDAB9),
  ("Peru", 0xCD853F),
  ("Pink", 0xFFC0CB),
  ("Plum", 0xDDA0DD),
  ("PowderBlue", 0xB0E0E6),
  ("Purple", 0x800080),
  ("Red", 0xFF0000),
  ("RosyBrown", 0xBC8F8F),
  ("RoyalBlue", 0x4169E1),
  ("SaddleBrown", 0x8B4513),
  ("Salmon", 0xFA8072),
  ("SandyBrown", 0xF4A460),
  ("SeaGreen", 0x2E8B57),
  ("SeaShell", 0xFFF5EE),
  ("Sienna", 0xA0522D),
  ("Silver", 0xC0C0C0),
  ("SkyBlue", 0x87CEEB),
  ("SlateBlue", 0x6A5ACD),
  ("SlateGray", 0x708090),
  ("SlateGrey", 0x708090),
  ("Snow", 0xFFFAFA),
  ("SpringGreen", 0x00FF7F),
  ("SteelBlue", 0x4682B4),
  ("Tan", 0xD2B48C),
  ("Teal", 0x008080),
  ("Thistle", 0xD8BFD8),
  ("Tomato", 0xFF6347),
  ("Turquoise", 0x40E0D0),
  ("Violet", 0xEE82EE),
  ("Wheat", 0xF5DEB3),
  ("White", 0xFFFFFF),
  ("WhiteSmoke", 0xF5F5F5),
  ("Yellow", 0xFFFF00),
  ("YellowGreen", 0x9ACD32),
  ]

/-- Linear scan of the color table, first case-insensitive match wins. -/
def getColorGo : List (String × Nat) → List Char → Nat
  | [], _ => 0
  | (n, v) :: t, s => if strcaseeq s n.data then v else getColorGo t s

/-- `GetColor` (lines 717-727): resolve a color name, 0 when unknown. -/
def GetColor (s : String) : Nat := getColorGo p_html_colors s.data

/-- The delimiter computation of `ConsumeAttribute` (lines 682-693), applied
to the cursor as it stands after the attribute-name scan: skip to the `=`
(the cursor stays on the `=` or on the terminator), skip whitespace, then
record the current character when it is a quote, NUL otherwise. -/
def consumeAttrDelim (l : List Char) : Char :=
  let l3 := l.dropWhile (· != '=')
  let l4 := l3.dropWhile isSpaceC
  match l4 with
  | c :: _ => if c = '\x27' ∨ c = '\x22' then c else '\x00'
  | [] => '\x00'

/-- `ConsumeAttribute` (lines 658-715).  Returns the `(name, value, new
cursor)` triple on success; `none` both at end-of-attributes and on an
allocation failure (the caller cannot distinguish the two, and the cursor is
not advanced in either case). -/
def ConsumeAttribute (oracle : Nat → Bool) (st : LState) (l : List Char) :
    Option (String × String × List Char) × LState :=
  let l1 := l.dropWhile (· == ' ')
  let nameChars := l1.takeWhile isAlphaC
  let l2 := l1.drop nameChars.length
  match l2 with
  | [] => (none, st)
  | _ :: _ =>
    let (ok1, st1) := allocOne oracle st
    if ok1 then
      let l3 := l2.dropWhile (· != '=')
      let l4 := l3.dropWhile isSpaceC
      let delim := consumeAttrDelim l2
      let l5 := l4.dropWhile isSpaceC
      let valChars := l5.takeWhile (fun c =>
        if delim != '\x00' then c != delim else !(isAlphaC c))
      let l6 := l5.drop valChars.length
      match l6 with
      | [] => (none, st1)
      | _ :: _ =>
        let (ok2, st2) := allocOne oracle st1
        if ok2 then (some (String.mk nameChars, String.mk valChars, l6), st2)
        else (none, st2)
    else (none, st1)

/-- The attribute-name dispatch of the font branch (lines 853-894): the
style-field store selected by the attribute name, `none` for an
unrecognized name (parsed and discarded). -/
def attrSetter (n v : String) : Option (TextStyle → TextStyle) :=
  if strcaseeq n.data "face".data then
    some (fun sty => { sty with psz_fontname := some v })
  else if strcaseeq n.data "family".data then
    some (fun sty => { sty with psz_monofontname := some v })
  else if strcaseeq n.data "size".data then
    some (fun sty => { sty with i_font_size := some (atoiC v) })
  else if strcaseeq n.data "color".data then
    some (fun sty => { sty with i_font_color := some (GetColor v) })
  else if strcaseeq n.data "outline-color".data then
    some (fun sty => { sty with i_outline_color := some (GetColor v) })
  else if strcaseeq n.data "shadow-color".data then
    some (fun sty => { sty with i_shadow_color := some (GetColor v) })
  else if strcaseeq n.data "outline-level".data then
    some (fun sty => { sty with i_outline_width := some (atoiC v) })
  else if strcaseeq n.data "shadow-level".data then
    some (fun sty => { sty with i_shadow_width := some (atoiC v) })
  else if strcaseeq n.data "back-color".data then
    some (fun sty => { sty with i_background_color := some (GetColor v) })
  else if strcaseeq n.data "alpha".data then
    some (fun sty => { sty with i_font_alpha := some (atoiC v) })
  else none

/-- One iteration of the attribute loop body: a recognized name stores
through `p_segment->style`, an unrecognized one has no effect. -/
def applyAttr (al : Bool) (n v : String) (st : LState) : Except LState LState :=
  match attrSetter n v with
  | some f => mutateCurStyle al f st
  | none => .ok st

/-- The `while(( psz_attribute_name = ConsumeAttribute(...) ))` loop of the
font branch (lines 851-898), fuel-indexed (the fuel passed by `stepFont` is
always sufficient because every successful `ConsumeAttribute` advances the
cursor). -/
def fontAttrLoop (oracle : Nat → Bool) (aliased : Bool) :
    Nat → List Char → LState → Except LState (List Char × LState)
  | 0, l, st => .ok (l, st)
  | fuel + 1, l, st =>
    match ConsumeAttribute oracle st l with
    | (none, st1) => .ok (l, st1)
    | (some (n, v, l1), st1) =>
      match applyAttr aliased n v st1 with
      | .error s => .error s
      | .ok st2 => fontAttrLoop oracle aliased fuel l1 st2

/-- Outcome of one loop iteration / of the whole loop. -/
inductive Status where
  | ok | failed | crashed | fuelOut
deriving Repr, DecidableEq

/-- One iteration either continues at a new cursor or halts the parse. -/
inductive StepRes where
  | cont (l : List Char) (st : LState)
  | halt (s : Status) (st : LState)
deriving Repr, DecidableEq

/-- An `AppendCharacter` call whose result is checked (`goto fail` on
failure): lines 805-810 and 813-818. -/
def appendChecked (oracle : Nat → Bool) (c : Char) (l1 : List Char) (st : LState) : StepRes :=
  match appendCur oracle st c with
  | none => .halt .crashed st
  | some (true, st1) => .cont l1 st1
  | some (false, st1) => .halt .failed st1

/-- An `AppendCharacter` call whose result is ignored (lines 926, 936, 992). -/
def appendUnchecked (oracle : Nat → Bool) (c : Char) (l1 : List Char) (st : LState) : StepRes :=
  match appendCur oracle st c with
  | none => .halt .crashed st
  | some (_, st1) => .cont l1 st1

/-- Push a style and OR a flag into it (the b/i/u/s and Y-block branches). -/
def pushFlag (oracle : Nat → Bool) (flag : Nat) (l1 : List Char) (st : LState) : StepRes :=
  match pushFlagE oracle flag st with
  | .error s => .halt .crashed s
  | .ok st1 => .cont l1 st1

def brPat : List Char := ['<', 'b', 'r', '/', '>']
def bTag : List Char := ['<', 'b', '>']
def iTag : List Char := ['<', 'i', '>']
def uTag : List Char := ['<', 'u', '>']
def sTag : List Char := ['<', 's', '>']
def fontTag : List Char := ['<', 'f', 'o', 'n', 't', ' ']
def closeTag : List Char := ['<', '/']
def fontName : List Char := ['f', 'o', 'n', 't']

/-- The `<font ...>` branch (lines 843-902): push a style, run the attribute
loop, then advance to - but not past - the `>` terminator. -/
def stepFont (oracle : Nat → Bool) (l : List Char) (st : LState) : StepRes :=
  match NewTextSegmentPushStyle oracle st with
  | .error s => .halt .crashed s
  | .ok (aliased, st1) =>
    let l1 := l.drop 6
    match fontAttrLoop oracle aliased (l1.length + 1) l1 st1 with
    | .error s => .halt .crashed s
    | .ok (l2, st2) => .cont (l2.drop ((l2.takeWhile (· != '>')).length)) st2

/-- The `</...>` branch (lines 903-928): scan to the `>` counting
`tag_length` from `p_old_pos` (which still points at the `<`), compare
against the five recognized names, pop on a match, otherwise emit a literal
`<` and resume one character after `p_old_pos`. -/
def stepClosing (oracle : Nat → Bool) (l : List Char) (st : LState) : StepRes :=
  let k := (l.takeWhile (· != '>')).length
  if strncaseeqC l ['b'] k || strncaseeqC l ['i'] k || strncaseeqC l ['u'] k ||
     strncaseeqC l ['s'] k || strncaseeqC l fontName k then
    match NewTextSegmentPopStyle oracle st with
    | .error s => .halt .crashed s
    | .ok st1 => .cont (l.drop k) st1
  else appendUnchecked oracle '<' (l.drop 1) st

/-- The `<` dispatch (lines 811-938), in source priority order. -/
def stepLt (oracle : Nat → Bool) (l : List Char) (st : LState) : StepRes :=
  if startsWithCI l brPat then appendChecked oracle '\n' (l.drop 5) st
  else if startsWithCI l bTag then pushFlag oracle STYLE_BOLD (l.drop 3) st
  else if startsWithCI l iTag then pushFlag oracle STYLE_ITALIC (l.drop 3) st
  else if startsWithCI l uTag then pushFlag oracle STYLE_UNDERLINE (l.drop 3) st
  else if startsWithCI l sTag then pushFlag oracle STYLE_STRIKEOUT (l.drop 3) st
  else if startsWithCI l fontTag then stepFont oracle l st
  else if startsWithEq l closeTag then stepClosing oracle l st
  else appendUnchecked oracle '<' (l.drop 1) st

/-- Guard of line 940. -/
def braceBSGuard (l : List Char) : Bool :=
  cidx l 0 == '\x7b' && cidx l 1 == '\\' && (strchrPos l '\x7d').isSome

/-- Guard of lines 959-961. -/
def braceYGuard (l : List Char) : Bool :=
  cidx l 0 == '\x7b' && (cidx l 1 == 'Y' || cidx l 1 == 'y') && cidx l 2 == ':' &&
    (strchrPos l '\x7d').isSome

/-- Guard of line 984. -/
def braceGenGuard (l : List Char) : Bool :=
  cidx l 0 == '\x7b' && cidx l 2 == ':' && (strchrPos l '\x7d').isSome

def piVertical : List Nat := [SUBPICTURE_ALIGN_BOTTOM, 0, SUBPICTURE_ALIGN_TOP]
def piHorizontal : List Nat := [SUBPICTURE_ALIGN_LEFT, 0, SUBPICTURE_ALIGN_RIGHT]

/-- Alignment decoded from the digit N of an alignment directive (line 952:
`pi_vertical[i_id/3] | pi_horizontal[i_id%3]` with `i_id = N - 1`). -/
def anValue (n : Nat) : Nat :=
  piVertical.getD ((n - 1) / 3) 0 ||| piHorizontal.getD ((n - 1) % 3) 0

/-- The four characters the alignment form test compares (line 945). -/
def anPat : List Char := ['\x7b', '\\', 'a', 'n']

/-- The SSA override-block branch (lines 940-958): decode a first
alignment directive of the exact form, then skip past the closing brace. -/
def stepBraceBS (l : List Char) (st : LState) : StepRes :=
  let st1 :=
    if st.hasAlign = false ∧ startsWithEq l anPat = true ∧
       ('1'.toNat ≤ (cidx l 4).toNat ∧ (cidx l 4).toNat ≤ '9'.toNat) ∧ cidx l 5 = '\x7d' then
      { st with hasAlign := true, align := anValue ((cidx l 4).toNat - '0'.toNat) }
    else st
  match strchrPos l '\x7d' with
  | some p => .cont (l.drop (p + 1)) st1
  | none => .halt .crashed st1

/-- One conditional push of the Y/y-block branch: when the character at
offset 3 matches, push the flag and advance the cursor by one. -/
def yPush (oracle : Nat → Bool) (flag : Nat) (cond : Prop) [Decidable cond]
    (l : List Char) (st : LState) : List Char × Except LState LState :=
  if cond then (l.drop 1, pushFlagE oracle flag st) else (l, .ok st)

/-- The legacy Y/y block branch (lines 959-983): up to three conditional
pushes, each advancing the cursor by one, then skip past the closing brace
(a crash if `strchr` were to return NULL, which the guard makes impossible). -/
def stepBraceY (oracle : Nat → Bool) (l : List Char) (st : LState) : StepRes :=
  let pa := yPush oracle STYLE_ITALIC (cidx l 3 = 'i') l st
  match pa.2 with
  | .error s => .halt .crashed s
  | .ok sta =>
    let pb := yPush oracle STYLE_BOLD (cidx pa.1 3 = 'b') pa.1 sta
    match pb.2 with
    | .error s => .halt .crashed s
    | .ok stb =>
      let pc := yPush oracle STYLE_UNDERLINE (cidx pb.1 3 = 'u') pb.1 stb
      match pc.2 with
      | .error s => .halt .crashed s
      | .ok stc =>
        match strchrPos pc.1 '\x7d' with
        | some p => .cont (pc.1.drop (p + 1)) stc
        | none => .halt .crashed stc

/-- The generic brace block branch (lines 984-988): skip past the brace. -/
def stepBraceGen (l : List Char) (st : LState) : StepRes :=
  match strchrPos l '\x7d' with
  | some p => .cont (l.drop (p + 1)) st
  | none => .halt .crashed st

/-- One iteration of the scan loop of `ParseSubtitles` (lines 803-995), the
branches in source priority order. -/
def step (oracle : Nat → Bool) (l : List Char) (st : LState) : StepRes :=
  if cidx l 0 = '\n' then appendChecked oracle '\n' (l.drop 1) st
  else if cidx l 0 = '<' then stepLt oracle l st
  else if braceBSGuard l then stepBraceBS l st
  else if braceYGuard l then stepBraceY oracle l st
  else if braceGenGuard l then stepBraceGen l st
  else appendUnchecked oracle (cidx l 0) (l.drop 1) st

/-- The scan loop, fuel-indexed.  Every iteration advances the cursor by at
least one character, so the fuel `ParseSubtitles` supplies is always
sufficient. -/
def parseLoop (oracle : Nat → Bool) : Nat → List Char → LState → Status × LState
  | 0, _, st => (.fuelOut, st)
  | fuel + 1, l, st =>
    match l with
    | [] => (.ok, st)
    | _ :: _ =>
      match step oracle l st with
      | .cont l1 st1 => parseLoop oracle fuel l1 st1
      | .halt s st1 => (s, st1)

/-- What the caller receives: the segment chain, a NULL return, or a crash
(NULL dereference inside the parse). -/
inductive PResult where
  | segs (l : List TextSegment)
  | nullRes
  | crash
  | fuelOut
deriving Repr, DecidableEq

/-- `ParseSubtitles` (lines 791-1001).  The first segment is allocated
eagerly (allocation 0); if that fails both `p_first_segment` and `p_segment`
are NULL and the function can only return NULL (or crash in the loop).  The
final alignment cell is returned alongside because the caller's `*pi_align`
is mutated in place during the scan. -/
def ParseSubtitles (oracle : Nat → Bool) (a0 : Nat) (s : String) : PResult × Nat :=
  let ok0 := oracle 0
  let st0 : LState := ⟨[], if ok0 then some ⟨"", none⟩ else none, [], a0, false, 1⟩
  match parseLoop oracle (s.data.length + 1) s.data st0 with
  | (.ok, stF) => (if ok0 then .segs (chainOf stF) else .nullRes, stF.align)
  | (.failed, stF) => (.nullRes, stF.align)
  | (.crashed, stF) => (.crash, stF.align)
  | (.fuelOut, stF) => (.fuelOut, stF.align)

/-- The oracle under which every allocation succeeds. -/
def allocAll : Nat → Bool := fun _ => true


/-! Claims C1, C2, C3, C5, C6, C9: concrete evaluations and small lemmas. -/

/-- The delimiter of `ConsumeAttribute` is always NUL: the skip-to-`=` loop
(line 683) leaves the cursor on the `=` or on the terminator, and neither is
a quote, so the quote test of line 690 can never succeed. -/
theorem consumeAttrDelim_eq_nul (l : List Char) : consumeAttrDelim l = '\x00' := by
  induction l with
  | nil => rfl
  | cons a t ih =>
    by_cases h : a = '='
    · subst h
      simp [consumeAttrDelim, List.dropWhile, isSpaceC]
    · have hb : (a != '=') = true := by simp [h]
      simpa [consumeAttrDelim, List.dropWhile, hb] using ih

/-- C1: the claim expects `</b>` to pop the style stack and open a plain
" normal" segment; in the source the comparison `strncasecmp(p_old_pos, "b",
tag_length)` starts at `p_old_pos`, which still includes the `</` prefix, so
no closing tag is ever recognized and the whole `</b> normal` tail stays in
the bold segment as literal text. -/
theorem c1_closing_tag_never_recognized :
    ParseSubtitles allocAll 0 "<b>bold</b> normal" =
      (PResult.segs [⟨"", none⟩,
        ⟨"bold</b> normal", some { defaultStyle with i_style_flags := STYLE_BOLD }⟩], 0) := by
  decide

/-- C2: the claim expects the font color 0xFF0000 and a separate "Plain"
segment; in the source `ConsumeAttribute` never steps past the `=`, so the
value tokenized for `color` is the two characters `="` and `GetColor`
resolves it to 0, and because the font branch also never steps past the `>`
terminator the `>` and the unrecognized `</font>` end up as literal text in
the same segment.  The color table itself would resolve "Red" to 0xFF0000. -/
theorem c2_font_color_not_resolved :
    ParseSubtitles allocAll 0 "<font color=\x22Red\x22>Red</font>Plain" =
      (PResult.segs [⟨"", none⟩,
        ⟨">Red</font>Plain", some { defaultStyle with i_font_color := some 0 }⟩], 0) ∧
    GetColor "Red" = 0xFF0000 := by
  exact ⟨by decide, by decide⟩

/-- C3: the claim says any allocation failure aborts the parse and returns
NULL; in the source the `AppendCharacter` call of the literal-text branch
(line 992) is unchecked, so with the second allocation failing on input "a"
the character is silently dropped and a non-NULL partial chain is returned. -/
theorem c3_alloc_failure_not_aborted :
    ParseSubtitles (fun n => n != 1) 0 "a" = (PResult.segs [⟨"", none⟩], 0) := by
  decide

/-- C5: the claim says a quoted value records the quote as delimiter and
returns the text between the quotes; in the source the delimiter is always
NUL (first conjunct), and on `color="Red">...` the tokenized value is the
two characters `="` with the cursor left on the `R`. -/
theorem c5_quote_delimiter_never_used :
    (∀ l : List Char, consumeAttrDelim l = '\x00') ∧
    (ConsumeAttribute allocAll ⟨[], some ⟨"", none⟩, [], 0, false, 0⟩
        "color=\x22Red\x22>Red</font>Plain".data).1 =
      some ("color", "=\x22", "Red\x22>Red</font>Plain".data) := by
  exact ⟨consumeAttrDelim_eq_nul, by decide⟩

/-- C6: the claim says pop on an empty stack is a guarded no-op that
synthesizes a default style; in the source `PopStyle` dereferences the NULL
stack head (`p_old->p_next`) before the defensive test of
`NewTextSegmentPopStyle` is reached, so the empty-stack pop is a crash. -/
theorem c6_pop_on_empty_stack_crashes :
    PopStyle [] = none ∧
    NewTextSegmentPopStyle allocAll ⟨[], some ⟨"", none⟩, [], 0, false, 0⟩ =
      Except.error ⟨[], some ⟨"", none⟩, [], 0, false, 1⟩ := by
  exact ⟨rfl, rfl⟩

/-- C9: `AppendCharacter` either succeeds and the text grows by exactly the
one character with all previous bytes preserved, or the `asprintf`
allocation fails and it returns false with the segment untouched. -/
theorem c9_append_character_strong_safety :
    ∀ (seg : TextSegment) (c : Char),
      AppendCharacter true seg c = (true, { seg with psz_text := seg.psz_text.push c }) ∧
      (AppendCharacter true seg c).2.psz_text.data = seg.psz_text.data ++ [c] ∧
      AppendCharacter false seg c = (false, seg) := by
  intro seg c
  refine ⟨rfl, ?_, rfl⟩
  simp [AppendCharacter, String.push]


/-! Claim C10: which offsets from the cursor the branch-dispatch tests read.
The C guards short-circuit left to right; `strncmp`/`strncasecmp` stop at a
mismatch or at the NUL terminator, `strchr` scans up to the character found
or the terminator.  An offset equal to the length of the remainder is the
terminator itself; a larger offset is past the end of the buffer. -/

/-- Offsets read from the cursor by `strncasecmp(l, p, n)`, starting the
count at `i`. -/
def snReadsCI : Nat → List Char → List Char → Nat → List Nat
  | _, _, _, 0 => []
  | i, l, p, n + 1 =>
    if asciiLower (cidx l 0) ≠ asciiLower (cidx p 0) then [i]
    else if cidx l 0 = '\x00' then [i]
    else i :: snReadsCI (i + 1) (l.drop 1) (p.drop 1) n

/-- Offsets read from the cursor by `strncmp(l, p, n)`. -/
def snReadsCS : Nat → List Char → List Char → Nat → List Nat
  | _, _, _, 0 => []
  | i, l, p, n + 1 =>
    if cidx l 0 ≠ cidx p 0 then [i]
    else if cidx l 0 = '\x00' then [i]
    else i :: snReadsCS (i + 1) (l.drop 1) (p.drop 1) n

/-- Offsets read by `strchr(l, c)` (the scan inspects the terminator when
the character is absent). -/
def scReads : Nat → List Char → Char → List Nat
  | i, [], _ => [i]
  | i, a :: t, c => if a = c then [i] else i :: scReads (i + 1) t c

/-- Offsets read by the alignment-form test of lines 944-945:
`strncmp` against the four-character pattern, then offset 4 when the form
matched, then offset 5 when offset 4 holds a digit 1-9. -/
def readsAnForm (l : List Char) : List Nat :=
  snReadsCS 0 l anPat 4 ++
    (if startsWithEq l anPat then
      4 :: (if '1'.toNat ≤ (cidx l 4).toNat ∧ (cidx l 4).toNat ≤ '9'.toNat then [5] else [])
    else [])

/-- Offsets read by the `<`-branch tag tests of lines 813-916 (the
`strncasecmp`/`strncmp` chain, each fully evaluated only when the previous
test failed). -/
def readsLt (l : List Char) : List Nat :=
  snReadsCI 0 l brPat 5 ++ (if startsWithCI l brPat then [] else
  snReadsCI 0 l bTag 3 ++ (if startsWithCI l bTag then [] else
  snReadsCI 0 l iTag 3 ++ (if startsWithCI l iTag then [] else
  snReadsCI 0 l uTag 3 ++ (if startsWithCI l uTag then [] else
  snReadsCI 0 l sTag 3 ++ (if startsWithCI l sTag then [] else
  snReadsCI 0 l fontTag 6 ++ (if startsWithCI l fontTag then [] else
  snReadsCS 0 l closeTag 2))))))

/-- Offsets read by the override-block guard of lines 940-941, plus the
alignment-form test inside it (over-approximated: the `b_has_align`
short-circuit before it is ignored, which only adds in-bounds offsets of an
already matched block). -/
def readsBrace1 (l : List Char) : List Nat :=
  0 :: (if cidx l 0 = '\x7b' then
         1 :: (if cidx l 1 = '\\' then
                 scReads 0 l '\x7d' ++
                   (if (strchrPos l '\x7d').isSome then readsAnForm l else [])
               else [])
       else [])

/-- Offsets read by the Y/y-block guard of lines 959-961. -/
def readsBrace2 (l : List Char) : List Nat :=
  0 :: (if cidx l 0 = '\x7b' then
         1 :: (if cidx l 1 = 'Y' ∨ cidx l 1 = 'y' then
                 2 :: (if cidx l 2 = ':' then scReads 0 l '\x7d' else [])
               else [])
       else [])

/-- Offsets read by the generic-brace guard of line 984: offset 0, then -
skipping offset 1 - offset 2, then the `strchr` scan. -/
def readsBrace3 (l : List Char) : List Nat :=
  0 :: (if cidx l 0 = '\x7b' then
         2 :: (if cidx l 2 = ':' then scReads 0 l '\x7d' else [])
       else [])

/-- Offsets read by the three brace-block guards in their short-circuit
order (the final 0 is the literal character the default branch reads). -/
def readsBrace (l : List Char) : List Nat :=
  readsBrace1 l ++
    (if braceBSGuard l then [] else
      readsBrace2 l ++
        (if braceYGuard l then [] else
          readsBrace3 l ++ (if braceGenGuard l then [] else [0])))

/-- Offsets read from the cursor while dispatching one iteration of the scan
loop (lines 803-992): the loop condition, the `\n` and `<` tests, then
either the tag tests or the brace-guard chain. -/
def readsDispatch (l : List Char) : List Nat :=
  0 :: (if l.isEmpty then [] else
    0 :: (if cidx l 0 = '\n' then [] else
      0 :: (if cidx l 0 = '<' then readsLt l else readsBrace l)))

theorem cidx_ne_nul {l : List Char} {i : Nat} (h : cidx l i ≠ '\x00') : i < l.length := by
  by_contra hlt
  apply h
  simp [cidx, List.getD, List.getElem?_eq_none (Nat.le_of_not_lt hlt)]

theorem snReadsCI_bound : ∀ (n : Nat) (i : Nat) (l p : List Char) (j : Nat),
    j ∈ snReadsCI i l p n → j ≤ i + l.length := by
  intro n
  induction n with
  | zero => intro i l p j h; simp [snReadsCI] at h
  | succ n ih =>
    intro i l p j h
    unfold snReadsCI at h
    split at h
    · simp only [List.mem_singleton] at h; omega
    · split at h
      · simp only [List.mem_singleton] at h; omega
      · rename_i hnul
        simp only [List.mem_cons] at h
        rcases h with h | h
        · omega
        · have hlen : 0 < l.length := cidx_ne_nul (i := 0) hnul
          have := ih (i + 1) (l.drop 1) (p.drop 1) j h
          simp only [List.length_drop] at this
          omega

theorem snReadsCS_bound : ∀ (n : Nat) (i : Nat) (l p : List Char) (j : Nat),
    j ∈ snReadsCS i l p n → j ≤ i + l.length := by
  intro n
  induction n with
  | zero => intro i l p j h; simp [snReadsCS] at h
  | succ n ih =>
    intro i l p j h
    unfold snReadsCS at h
    split at h
    · simp only [List.mem_singleton] at h; omega
    · split at h
      · simp only [List.mem_singleton] at h; omega
      · rename_i hnul
        simp only [List.mem_cons] at h
        rcases h with h | h
        · omega
        · have hlen : 0 < l.length := cidx_ne_nul (i := 0) hnul
          have := ih (i + 1) (l.drop 1) (p.drop 1) j h
          simp only [List.length_drop] at this
          omega

theorem scReads_bound : ∀ (l : List Char) (i : Nat) (c : Char) (j : Nat),
    j ∈ scReads i l c → j ≤ i + l.length := by
  intro l
  induction l with
  | nil =>
    intro i c j h
    simp only [scReads, List.mem_singleton] at h
    simp only [List.length_nil]
    omega
  | cons a t ih =>
    intro i c j h
    unfold scReads at h
    simp only [List.length_cons]
    split at h
    · simp only [List.mem_singleton] at h
      omega
    · simp only [List.mem_cons] at h
      rcases h with h | h
      · omega
      · have := ih (i + 1) c j h
        omega

theorem startsWithEq_length : ∀ (p l : List Char), startsWithEq l p = true →
    p.length ≤ l.length := by
  intro p
  induction p with
  | nil => intro l _; simp
  | cons b q ih =>
    intro l h
    cases l with
    | nil => simp [startsWithEq] at h
    | cons a t =>
      simp only [startsWithEq, Bool.and_eq_true] at h
      have := ih t h.2
      simp only [List.length_cons]
      omega

theorem readsAnForm_bound (l : List Char) (j : Nat) (h : j ∈ readsAnForm l) :
    j ≤ l.length := by
  unfold readsAnForm at h
  simp only [List.mem_append] at h
  rcases h with h | h
  · simpa using snReadsCS_bound 4 0 l anPat j h
  · split at h
    · rename_i hsw
      simp only [List.mem_cons] at h
      rcases h with h | h
      · have := startsWithEq_length anPat l hsw
        simp [anPat] at this
        omega
      · split at h
        · rename_i hdig
          simp only [List.mem_singleton] at h
          subst h
          have hne : cidx l 4 ≠ '\x00' := by
            intro he
            rw [he] at hdig
            simp at hdig
          have := cidx_ne_nul hne
          omega
        · simp at h
    · simp at h

theorem readsLt_bound (l : List Char) (j : Nat) (h : j ∈ readsLt l) : j ≤ l.length := by
  unfold readsLt at h
  simp only [List.mem_append] at h
  rcases h with h | h
  · simpa using snReadsCI_bound 5 0 l brPat j h
  · split at h
    · simp at h
    · simp only [List.mem_append] at h
      rcases h with h | h
      · simpa using snReadsCI_bound 3 0 l bTag j h
      · split at h
        · simp at h
        · simp only [List.mem_append] at h
          rcases h with h | h
          · simpa using snReadsCI_bound 3 0 l iTag j h
          · split at h
            · simp at h
            · simp only [List.mem_append] at h
              rcases h with h | h
              · simpa using snReadsCI_bound 3 0 l uTag j h
              · split at h
                · simp at h
                · simp only [List.mem_append] at h
                  rcases h with h | h
                  · simpa using snReadsCI_bound 3 0 l sTag j h
                  · split at h
                    · simp at h
                    · simp only [List.mem_append] at h
                      rcases h with h | h
                      · simpa using snReadsCI_bound 6 0 l fontTag j h
                      · split at h
                        · simp at h
                        · simpa using snReadsCS_bound 2 0 l closeTag j h

theorem readsBrace1_bound (l : List Char) (j : Nat) (h : j ∈ readsBrace1 l) :
    j ≤ l.length := by
  unfold readsBrace1 at h
  simp only [List.mem_cons] at h
  rcases h with h | h
  · omega
  · split at h
    · rename_i hc0
      have h0 : 0 < l.length := cidx_ne_nul (by rw [hc0]; decide)
      simp only [List.mem_cons] at h
      rcases h with h | h
      · omega
      · split at h
        · simp only [List.mem_append] at h
          rcases h with h | h
          · have := scReads_bound l 0 '\x7d' j h
            omega
          · split at h
            · exact readsAnForm_bound l j h
            · simp at h
        · simp at h
    · simp at h

theorem readsBrace2_bound (l : List Char) (j : Nat) (h : j ∈ readsBrace2 l) :
    j ≤ l.length := by
  unfold readsBrace2 at h
  simp only [List.mem_cons] at h
  rcases h with h | h
  · omega
  · split at h
    · rename_i hc0
      have h0 : 0 < l.length := cidx_ne_nul (by rw [hc0]; decide)
      simp only [List.mem_cons] at h
      rcases h with h | h
      · omega
      · split at h
        · rename_i hy
          have h1 : 1 < l.length := by
            refine cidx_ne_nul ?_
            rcases hy with hy | hy <;> rw [hy] <;> decide
          simp only [List.mem_cons] at h
          rcases h with h | h
          · omega
          · split at h
            · have := scReads_bound l 0 '\x7d' j h
              omega
            · simp at h
        · simp at h
    · simp at h

theorem readsBrace3_bound (l : List Char) (j : Nat) (h : j ∈ readsBrace3 l) :
    j ≤ l.length ∨ (l = ['\x7b'] ∧ j = 2) := by
  unfold readsBrace3 at h
  simp only [List.mem_cons] at h
  rcases h with h | h
  · left; omega
  · split at h
    · rename_i hc0
      have h0 : 0 < l.length := cidx_ne_nul (by rw [hc0]; decide)
      simp only [List.mem_cons] at h
      rcases h with h | h
      · subst h
        by_cases h2 : 2 ≤ l.length
        · left; exact h2
        · right
          refine ⟨?_, rfl⟩
          have hl1 : l.length = 1 := by omega
          cases l with
          | nil => simp at hl1
          | cons a t =>
            cases t with
            | nil =>
              have ha : a = '\x7b' := by simpa [cidx, List.getD] using hc0
              rw [ha]
            | cons b u => simp at hl1
      · split at h
        · left
          have := scReads_bound l 0 '\x7d' j h
          omega
        · simp at h
    · simp at h

theorem readsBrace_bound (l : List Char) (j : Nat) (h : j ∈ readsBrace l) :
    j ≤ l.length ∨ (l = ['\x7b'] ∧ j = 2) := by
  unfold readsBrace at h
  simp only [List.mem_append] at h
  rcases h with h | h
  · left; exact readsBrace1_bound l j h
  · split at h
    · simp at h
    · simp only [List.mem_append] at h
      rcases h with h | h
      · left; exact readsBrace2_bound l j h
      · split at h
        · simp at h
        · simp only [List.mem_append] at h
          rcases h with h | h
          · exact readsBrace3_bound l j h
          · split at h
            · simp at h
            · simp only [List.mem_singleton] at h
              left; omega

/-- C10 (amended): every offset the branch dispatch reads, relative to the
cursor, is within the buffer up to and including the terminator, except
that the generic-brace test reads offset 2 when the remaining input is
exactly the single brace character (a brace directly before the
terminator), one byte past the terminating NUL. -/
theorem c10_reads_stay_in_bounds (l : List Char) (j : Nat) (h : j ∈ readsDispatch l) :
    j ≤ l.length ∨ (l = ['\x7b'] ∧ j = 2) := by
  unfold readsDispatch at h
  simp only [List.mem_cons] at h
  rcases h with h | h
  · left; omega
  · split at h
    · simp at h
    · simp only [List.mem_cons] at h
      rcases h with h | h
      · left; omega
      · split at h
        · simp at h
        · simp only [List.mem_cons] at h
          rcases h with h | h
          · left; omega
          · split at h
            · left; exact readsLt_bound l j h
            · exact readsBrace_bound l j h

/-- C10 counterexample: with the cursor on a brace that is the last
character of the input (terminator at offset 1), the generic `x:y` test of
line 984 reads offset 2, one byte past the terminator, so the scanner does
not only inspect positions up to and including the terminating NUL. -/
theorem c10_reads_past_terminator :
    2 ∈ readsDispatch ['\x7b'] ∧ ¬ (2 ≤ (['\x7b'] : List Char).length) := by
  decide

/-- Witness for `c10_reads_stay_in_bounds` at offset 0 of the remainder "a". -/
theorem c10_reads_stay_in_bounds_witness :
    0 ≤ (['a'] : List Char).length ∨ ((['a'] : List Char) = ['\x7b'] ∧ 0 = 2) :=
  c10_reads_stay_in_bounds ['a'] 0 (by decide)


/-! Claim C4 machinery: the scan loop writes `*pi_align` and `b_has_align`
only in the alignment branch, and only when `b_has_align` is still false;
the written value is `anValue` of the directive digit. -/

/-- The operation left the alignment cell and the already-set flag alone. -/
def alignEq (st st1 : LState) : Prop :=
  st1.align = st.align ∧ st1.hasAlign = st.hasAlign

/-- The operation decoded a first alignment directive: the flag flips from
false to true and the cell now holds `anValue n` for a digit n of 1-9. -/
def anSet (st st1 : LState) : Prop :=
  st.hasAlign = false ∧ st1.hasAlign = true ∧
    ∃ n, 1 ≤ n ∧ n ≤ 9 ∧ st1.align = anValue n

def stStateOf : StepRes → LState
  | .cont _ st => st
  | .halt _ st => st

def exStateOf : Except LState LState → LState
  | .error s => s
  | .ok s => s

def exStateOfP : Except LState (Bool × LState) → LState
  | .error s => s
  | .ok (_, s) => s

def exStateOfL : Except LState (List Char × LState) → LState
  | .error s => s
  | .ok (_, s) => s

theorem alignEq_refl (st : LState) : alignEq st st := ⟨rfl, rfl⟩

theorem alignEq_trans {a b c : LState} (h1 : alignEq a b) (h2 : alignEq b c) :
    alignEq a c := ⟨h2.1.trans h1.1, h2.2.trans h1.2⟩

theorem appendCur_alignEq (o : Nat → Bool) (st : LState) (c : Char) :
    ∀ b st1, appendCur o st c = some (b, st1) → alignEq st st1 := by
  intro b st1 h
  unfold appendCur allocOne AppendCharacter at h
  cases hc : st.cur with
  | none => rw [hc] at h; simp at h
  | some seg =>
    rw [hc] at h
    simp only [] at h
    split at h <;> (cases h; exact ⟨rfl, rfl⟩)

theorem DuplicateAndPushStyle_alignEq (o : Nat → Bool) (st : LState) :
    ∀ a b st1, DuplicateAndPushStyle o st = (a, b, st1) → alignEq st st1 := by
  intro a b st1 h
  unfold DuplicateAndPushStyle allocOne at h
  simp only [] at h
  split at h
  · split at h <;> (cases h; exact ⟨rfl, rfl⟩)
  · cases h; exact ⟨rfl, rfl⟩

theorem NewTextSegmentPushStyle_alignEq (o : Nat → Bool) (st : LState) :
    alignEq st (exStateOfP (NewTextSegmentPushStyle o st)) := by
  unfold NewTextSegmentPushStyle allocOne
  simp only []
  split
  · rcases hd : DuplicateAndPushStyle o { st with cnt := st.cnt + 1 } with ⟨a, pr⟩
    obtain ⟨b, st2⟩ := pr
    have hae : alignEq st st2 :=
      alignEq_trans (⟨rfl, rfl⟩ : alignEq st { st with cnt := st.cnt + 1 })
        (DuplicateAndPushStyle_alignEq o _ a b st2 hd)
    split <;> exact hae
  · exact ⟨rfl, rfl⟩

theorem NewTextSegmentPopStyle_alignEq (o : Nat → Bool) (st : LState) :
    alignEq st (exStateOf (NewTextSegmentPopStyle o st)) := by
  unfold NewTextSegmentPopStyle allocOne
  simp only []
  split
  · split
    · exact ⟨rfl, rfl⟩
    · split
      · exact ⟨rfl, rfl⟩
      · exact ⟨rfl, rfl⟩
  · exact ⟨rfl, rfl⟩

theorem mutateCurStyle_alignEq (al : Bool) (f : TextStyle → TextStyle) (st : LState) :
    alignEq st (exStateOf (mutateCurStyle al f st)) := by
  unfold mutateCurStyle
  cases hc : st.cur with
  | none => exact ⟨rfl, rfl⟩
  | some seg =>
    simp only []
    cases hs : seg.style with
    | none => exact ⟨rfl, rfl⟩
    | some sty =>
      simp only []
      split <;> exact ⟨rfl, rfl⟩

theorem pushFlagE_alignEq (o : Nat → Bool) (flag : Nat) (st : LState) :
    alignEq st (exStateOf (pushFlagE o flag st)) := by
  unfold pushFlagE
  cases hp : NewTextSegmentPushStyle o st with
  | error s =>
    have h := NewTextSegmentPushStyle_alignEq o st
    rw [hp] at h
    exact h
  | ok pr =>
    obtain ⟨al, st1⟩ := pr
    have h1 : alignEq st st1 := by
      have h := NewTextSegmentPushStyle_alignEq o st
      rw [hp] at h
      exact h
    exact alignEq_trans h1 (mutateCurStyle_alignEq al _ st1)

theorem ConsumeAttribute_state (o : Nat → Bool) (st : LState) (l : List Char) :
    (ConsumeAttribute o st l).2.prev = st.prev ∧ (ConsumeAttribute o st l).2.cur = st.cur ∧
    (ConsumeAttribute o st l).2.stack = st.stack ∧ (ConsumeAttribute o st l).2.align = st.align ∧
    (ConsumeAttribute o st l).2.hasAlign = st.hasAlign := by
  unfold ConsumeAttribute allocOne
  simp only []
  split
  · simp
  · split
    · split
      · simp
      · split <;> simp
    · simp

theorem applyAttr_alignEq (al : Bool) (n v : String) (st : LState) :
    alignEq st (exStateOf (applyAttr al n v st)) := by
  unfold applyAttr
  cases attrSetter n v with
  | none => exact ⟨rfl, rfl⟩
  | some f => exact mutateCurStyle_alignEq al f st

theorem fontAttrLoop_alignEq (o : Nat → Bool) (al : Bool) :
    ∀ (fuel : Nat) (l : List Char) (st : LState),
      alignEq st (exStateOfL (fontAttrLoop o al fuel l st)) := by
  intro fuel
  induction fuel with
  | zero => intro l st; exact ⟨rfl, rfl⟩
  | succ fuel ih =>
    intro l st
    unfold fontAttrLoop
    rcases hca : ConsumeAttribute o st l with ⟨r, st1⟩
    have hc : alignEq st st1 := by
      have h := ConsumeAttribute_state o st l
      rw [hca] at h
      exact ⟨h.2.2.2.1, h.2.2.2.2⟩
    cases r with
    | none => exact hc
    | some triple =>
      obtain ⟨n, v, l1⟩ := triple
      simp only []
      cases hap : applyAttr al n v st1 with
      | error s =>
        have h := applyAttr_alignEq al n v st1
        rw [hap] at h
        exact alignEq_trans hc h
      | ok st2 =>
        have h2 : alignEq st1 st2 := by
          have h := applyAttr_alignEq al n v st1
          rw [hap] at h
          exact h
        exact alignEq_trans (alignEq_trans hc h2) (ih l1 st2)

theorem appendChecked_alignEq (o : Nat → Bool) (c : Char) (l1 : List Char) (st : LState) :
    alignEq st (stStateOf (appendChecked o c l1 st)) := by
  unfold appendChecked
  cases hap : appendCur o st c with
  | none => exact ⟨rfl, rfl⟩
  | some pr =>
    obtain ⟨b, st1⟩ := pr
    have h := appendCur_alignEq o st c b st1 hap
    cases b <;> exact h

theorem appendUnchecked_alignEq (o : Nat → Bool) (c : Char) (l1 : List Char) (st : LState) :
    alignEq st (stStateOf (appendUnchecked o c l1 st)) := by
  unfold appendUnchecked
  cases hap : appendCur o st c with
  | none => exact ⟨rfl, rfl⟩
  | some pr =>
    obtain ⟨b, st1⟩ := pr
    exact appendCur_alignEq o st c b st1 hap

theorem pushFlag_alignEq (o : Nat → Bool) (flag : Nat) (l1 : List Char) (st : LState) :
    alignEq st (stStateOf (pushFlag o flag l1 st)) := by
  unfold pushFlag
  cases hp : pushFlagE o flag st with
  | error s =>
    have h := pushFlagE_alignEq o flag st
    rw [hp] at h
    exact h
  | ok st1 =>
    have h := pushFlagE_alignEq o flag st
    rw [hp] at h
    exact h

theorem stepFont_alignEq (o : Nat → Bool) (l : List Char) (st : LState) :
    alignEq st (stStateOf (stepFont o l st)) := by
  unfold stepFont
  cases hp : NewTextSegmentPushStyle o st with
  | error s =>
    have h := NewTextSegmentPushStyle_alignEq o st
    rw [hp] at h
    exact h
  | ok pr =>
    obtain ⟨al, st1⟩ := pr
    have h1 : alignEq st st1 := by
      have h := NewTextSegmentPushStyle_alignEq o st
      rw [hp] at h
      exact h
    simp only []
    cases hf : fontAttrLoop o al ((l.drop 6).length + 1) (l.drop 6) st1 with
    | error s =>
      have h := fontAttrLoop_alignEq o al ((l.drop 6).length + 1) (l.drop 6) st1
      rw [hf] at h
      exact alignEq_trans h1 h
    | ok pr2 =>
      obtain ⟨l2, st2⟩ := pr2
      have h := fontAttrLoop_alignEq o al ((l.drop 6).length + 1) (l.drop 6) st1
      rw [hf] at h
      exact alignEq_trans h1 h

theorem stepClosing_alignEq (o : Nat → Bool) (l : List Char) (st : LState) :
    alignEq st (stStateOf (stepClosing o l st)) := by
  unfold stepClosing
  simp only []
  split
  · cases hp : NewTextSegmentPopStyle o st with
    | error s =>
      have h := NewTextSegmentPopStyle_alignEq o st
      rw [hp] at h
      exact h
    | ok st1 =>
      have h := NewTextSegmentPopStyle_alignEq o st
      rw [hp] at h
      exact h
  · exact appendUnchecked_alignEq o '<' (l.drop 1) st

theorem stepLt_alignEq (o : Nat → Bool) (l : List Char) (st : LState) :
    alignEq st (stStateOf (stepLt o l st)) := by
  unfold stepLt
  split_ifs <;> first
    | exact appendChecked_alignEq o '\n' (l.drop 5) st
    | exact pushFlag_alignEq o _ _ st
    | exact stepFont_alignEq o l st
    | exact stepClosing_alignEq o l st
    | exact appendUnchecked_alignEq o '<' (l.drop 1) st

theorem yPush_alignEq (o : Nat → Bool) (flag : Nat) (cond : Prop) [Decidable cond]
    (l : List Char) (st : LState) :
    alignEq st (exStateOf (yPush o flag cond l st).2) := by
  unfold yPush
  split
  · exact pushFlagE_alignEq o flag st
  · exact ⟨rfl, rfl⟩

theorem stepBraceY_alignEq (o : Nat → Bool) (l : List Char) (st : LState) :
    alignEq st (stStateOf (stepBraceY o l st)) := by
  unfold stepBraceY
  simp only []
  rcases hpa : yPush o STYLE_ITALIC (cidx l 3 = 'i') l st with ⟨la, ra⟩
  have ha := yPush_alignEq o STYLE_ITALIC (cidx l 3 = 'i') l st
  rw [hpa] at ha
  simp only [exStateOf] at ha
  cases ra with
  | error s => exact ha
  | ok sta =>
    simp only []
    rcases hpb : yPush o STYLE_BOLD (cidx la 3 = 'b') la sta with ⟨lb, rb⟩
    have hb := yPush_alignEq o STYLE_BOLD (cidx la 3 = 'b') la sta
    rw [hpb] at hb
    simp only [exStateOf] at hb
    cases rb with
    | error s => exact alignEq_trans ha hb
    | ok stb =>
      simp only []
      rcases hpc : yPush o STYLE_UNDERLINE (cidx lb 3 = 'u') lb stb with ⟨lc, rc⟩
      have hcu := yPush_alignEq o STYLE_UNDERLINE (cidx lb 3 = 'u') lb stb
      rw [hpc] at hcu
      simp only [exStateOf] at hcu
      cases rc with
      | error s => exact alignEq_trans (alignEq_trans ha hb) hcu
      | ok stc =>
        cases strchrPos lc '\x7d' <;>
          exact alignEq_trans (alignEq_trans ha hb) hcu

theorem stepBraceGen_alignEq (l : List Char) (st : LState) :
    alignEq st (stStateOf (stepBraceGen l st)) := by
  unfold stepBraceGen
  cases strchrPos l '\x7d' <;> exact ⟨rfl, rfl⟩

theorem stepBraceBS_align (l : List Char) (st : LState) :
    alignEq st (stStateOf (stepBraceBS l st)) ∨ anSet st (stStateOf (stepBraceBS l st)) := by
  have key : ∀ st1 : LState,
      st1 = (if st.hasAlign = false ∧ startsWithEq l anPat = true ∧
               ('1'.toNat ≤ (cidx l 4).toNat ∧ (cidx l 4).toNat ≤ '9'.toNat) ∧
               cidx l 5 = '\x7d' then
               { st with hasAlign := true, align := anValue ((cidx l 4).toNat - '0'.toNat) }
             else st) →
      alignEq st st1 ∨ anSet st st1 := by
    intro st1 h1
    split at h1
    · rename_i hc
      right
      subst h1
      refine ⟨hc.1, rfl, (cidx l 4).toNat - '0'.toNat, ?_, ?_, rfl⟩
      · have hA := hc.2.2.1.1
        have e1 : '1'.toNat = 49 := rfl
        have e0 : '0'.toNat = 48 := rfl
        rw [e1] at hA
        rw [e0]
        omega
      · have hB := hc.2.2.1.2
        have e9 : '9'.toNat = 57 := rfl
        have e0 : '0'.toNat = 48 := rfl
        rw [e9] at hB
        rw [e0]
        omega
    · subst h1; left; exact ⟨rfl, rfl⟩
  unfold stepBraceBS
  simp only []
  cases strchrPos l '\x7d' with
  | none => exact key _ rfl
  | some p => exact key _ rfl

theorem step_align (o : Nat → Bool) (l : List Char) (st : LState) :
    alignEq st (stStateOf (step o l st)) ∨ anSet st (stStateOf (step o l st)) := by
  unfold step
  split_ifs
  · exact Or.inl (appendChecked_alignEq o '\n' (l.drop 1) st)
  · exact Or.inl (stepLt_alignEq o l st)
  · exact stepBraceBS_align l st
  · exact Or.inl (stepBraceY_alignEq o l st)
  · exact Or.inl (stepBraceGen_alignEq l st)
  · exact Or.inl (appendUnchecked_alignEq o (cidx l 0) (l.drop 1) st)

theorem parseLoop_align (o : Nat → Bool) :
    ∀ (fuel : Nat) (l : List Char) (st : LState),
      alignEq st (parseLoop o fuel l st).2 ∨ anSet st (parseLoop o fuel l st).2 := by
  intro fuel
  induction fuel with
  | zero => intro l st; left; exact ⟨rfl, rfl⟩
  | succ fuel ih =>
    intro l st
    cases l with
    | nil => left; exact ⟨rfl, rfl⟩
    | cons a t =>
      simp only [parseLoop]
      cases hs : step o (a :: t) st with
      | halt s st1 =>
        have h := step_align o (a :: t) st
        rw [hs] at h
        exact h
      | cont l1 st1 =>
        have h1 := step_align o (a :: t) st
        rw [hs] at h1
        simp only [stStateOf] at h1
        have h2 := ih l1 st1
        rcases h1 with h1 | h1
        · rcases h2 with h2 | h2
          · left; exact alignEq_trans h1 h2
          · right
            obtain ⟨hf, ht, n, hn1, hn9, hv⟩ := h2
            exact ⟨h1.2.symm.trans hf, ht, n, hn1, hn9, hv⟩
        · rcases h2 with h2 | h2
          · right
            obtain ⟨hf, ht, n, hn1, hn9, hv⟩ := h1
            exact ⟨hf, h2.2.trans ht, n, hn1, hn9, h2.1.trans hv⟩
          · exact absurd h2.1 (by simp [h1.2.1])

/-- C4: the caller's alignment is overwritten at most once.  Once
`b_has_align` is set the loop never changes the alignment cell again (first
conjunct); over any run the alignment either keeps its starting value or is
set - flipping the flag - to `anValue n` = vertical[(n-1)/3] OR
horizontal[(n-1)%3] for a digit n of 1-9 (second and third conjuncts); a
first directive is decoded and a later one ignored (concrete conjuncts,
with the would-be value of the ignored directive shown different). -/
theorem c4_alignment_written_at_most_once :
    (∀ (o : Nat → Bool) (fuel : Nat) (l : List Char) (st : LState),
        st.hasAlign = true →
        (parseLoop o fuel l st).2.align = st.align ∧
          (parseLoop o fuel l st).2.hasAlign = true) ∧
    (∀ (o : Nat → Bool) (fuel : Nat) (l : List Char) (st : LState),
        alignEq st (parseLoop o fuel l st).2 ∨ anSet st (parseLoop o fuel l st).2) ∧
    (∀ (o : Nat → Bool) (s : String) (a0 : Nat),
        (ParseSubtitles o a0 s).2 = a0 ∨
          ∃ n, 1 ≤ n ∧ n ≤ 9 ∧ (ParseSubtitles o a0 s).2 = anValue n) ∧
    (ParseSubtitles allocAll 0 "\x7b\\an7\x7dTop Left").2 =
      (SUBPICTURE_ALIGN_TOP ||| SUBPICTURE_ALIGN_LEFT) ∧
    (ParseSubtitles allocAll 0 "\x7b\\an1\x7d\x7b\\an9\x7d").2 =
      (SUBPICTURE_ALIGN_BOTTOM ||| SUBPICTURE_ALIGN_LEFT) ∧
    anValue 9 = (SUBPICTURE_ALIGN_TOP ||| SUBPICTURE_ALIGN_RIGHT) := by
  refine ⟨?_, parseLoop_align, ?_, by decide, by decide, by decide⟩
  · intro o fuel l st htrue
    rcases parseLoop_align o fuel l st with h | h
    · exact ⟨h.1, h.2.trans htrue⟩
    · obtain ⟨hf, -, -⟩ := h
      rw [htrue] at hf
      simp at hf
  · intro o s a0
    have key := parseLoop_align o (s.data.length + 1) s.data
      ⟨[], if o 0 then some ⟨"", none⟩ else none, [], a0, false, 1⟩
    rcases hl : parseLoop o (s.data.length + 1) s.data
        ⟨[], if o 0 then some ⟨"", none⟩ else none, [], a0, false, 1⟩ with ⟨status, stF⟩
    rw [hl] at key
    have halign : (ParseSubtitles o a0 s).2 = stF.align := by
      unfold ParseSubtitles
      simp only []
      rw [hl]
      cases status <;> rfl
    rcases key with key | key
    · left; rw [halign]; exact key.1
    · right
      obtain ⟨_, _, n, hn1, hn9, hv⟩ := key
      exact ⟨n, hn1, hn9, halign.trans hv⟩

/-- Witness for `c4_alignment_written_at_most_once`: with the flag already
set, a run over the remainder "x" leaves the alignment value 3 unchanged. -/
theorem c4_alignment_written_at_most_once_witness :
    (parseLoop allocAll 2 ['x'] ⟨[], some ⟨"", none⟩, [], 3, true, 1⟩).2.align = 3 ∧
    (parseLoop allocAll 2 ['x'] ⟨[], some ⟨"", none⟩, [], 3, true, 1⟩).2.hasAlign = true :=
  c4_alignment_written_at_most_once.1 allocAll 2 ['x']
    ⟨[], some ⟨"", none⟩, [], 3, true, 1⟩ rfl


/-! Claim C7/C8 machinery: under the always-succeeding allocation oracle
the scan never crashes, never fails, and every iteration strictly advances
the cursor, so `ParseSubtitles` always returns a non-empty chain. -/

theorem strchrPos_isSome_of_mem {c : Char} : ∀ {l : List Char}, c ∈ l →
    (strchrPos l c).isSome := by
  intro l
  induction l with
  | nil => intro h; simp at h
  | cons a t ih =>
    intro h
    unfold strchrPos
    by_cases ha : a = c
    · simp [ha]
    · have : c ∈ t := by
        rcases List.mem_cons.mp h with h1 | h1
        · exact absurd h1.symm ha
        · exact h1
      simp [ha]
      exact ih this

theorem strchrPos_lt {c : Char} : ∀ {l : List Char} {p : Nat}, strchrPos l c = some p →
    p < l.length := by
  intro l
  induction l with
  | nil => intro p h; simp [strchrPos] at h
  | cons a t ih =>
    intro p h
    unfold strchrPos at h
    split at h
    · cases h; simp
    · simp only [Option.map_eq_some'] at h
      obtain ⟨q, hq, rfl⟩ := h
      have := ih hq
      simp
      omega

theorem mem_drop_of_mem_drop_ge {c : Char} {l : List Char} {k m : Nat} (hkm : k ≤ m)
    (h : c ∈ l.drop m) : c ∈ l.drop k := by
  have he : l.drop m = (l.drop k).drop (m - k) := by
    rw [List.drop_drop]
    congr 1
    omega
  rw [he] at h
  exact List.drop_subset _ _ h

theorem mem_drop3_of_head_ne {c : Char} {l : List Char} (hm : c ∈ l)
    (h0 : cidx l 0 ≠ c) (h1 : cidx l 1 ≠ c) (h2 : cidx l 2 ≠ c) : c ∈ l.drop 3 := by
  cases l with
  | nil => simp at hm
  | cons a t =>
    cases t with
    | nil =>
      simp [cidx, List.getD] at h0
      simp at hm
      exact absurd hm.symm h0
    | cons b u =>
      cases u with
      | nil =>
        simp [cidx, List.getD] at h0 h1
        simp at hm
        rcases hm with hm | hm
        · exact absurd hm.symm h0
        · exact absurd hm.symm h1
      | cons d w =>
        simp [cidx, List.getD] at h0 h1 h2
        simp at hm ⊢
        rcases hm with hm | hm | hm | hm
        · exact absurd hm.symm h0
        · exact absurd hm.symm h1
        · exact absurd hm.symm h2
        · exact hm

theorem length_drop_lt_cons (a : Char) (t : List Char) (k : Nat) (hk : 1 ≤ k) :
    ((a :: t).drop k).length < (a :: t).length := by
  rw [List.length_drop]
  simp only [List.length_cons]
  omega

/-- `AppendCharacter` on a live segment under the all-succeeding oracle. -/
theorem appendCur_all (prev : List TextSegment) (stack : List TextStyle)
    (align : Nat) (hasAlign : Bool) (cnt : Nat) (seg : TextSegment) (c : Char) :
    appendCur allocAll ⟨prev, some seg, stack, align, hasAlign, cnt⟩ c =
      some (true, ⟨prev, some { seg with psz_text := seg.psz_text.push c },
                   stack, align, hasAlign, cnt + 1⟩) := rfl

theorem appendChecked_all (c : Char) (l1 : List Char) (prev : List TextSegment)
    (stack : List TextStyle) (align : Nat) (hasAlign : Bool) (cnt : Nat)
    (seg : TextSegment) :
    appendChecked allocAll c l1 ⟨prev, some seg, stack, align, hasAlign, cnt⟩ =
      .cont l1 ⟨prev, some { seg with psz_text := seg.psz_text.push c },
                stack, align, hasAlign, cnt + 1⟩ := rfl

theorem appendUnchecked_all (c : Char) (l1 : List Char) (prev : List TextSegment)
    (stack : List TextStyle) (align : Nat) (hasAlign : Bool) (cnt : Nat)
    (seg : TextSegment) :
    appendUnchecked allocAll c l1 ⟨prev, some seg, stack, align, hasAlign, cnt⟩ =
      .cont l1 ⟨prev, some { seg with psz_text := seg.psz_text.push c },
                stack, align, hasAlign, cnt + 1⟩ := rfl

/-- `NewTextSegmentPushStyle` on a live segment under the all-succeeding
oracle: the duplicate of the stack top is pushed and becomes the new
segment's (aliased) style. -/
theorem NewTextSegmentPushStyle_all (prev : List TextSegment) (stack : List TextStyle)
    (align : Nat) (hasAlign : Bool) (cnt : Nat) (seg : TextSegment) :
    NewTextSegmentPushStyle allocAll ⟨prev, some seg, stack, align, hasAlign, cnt⟩ =
      .ok (true, ⟨seg :: prev, some ⟨"", some (dupTop stack)⟩,
                  dupTop stack :: stack, align, hasAlign, cnt + 3⟩) := rfl

theorem pushFlagE_all (flag : Nat) (prev : List TextSegment) (stack : List TextStyle)
    (align : Nat) (hasAlign : Bool) (cnt : Nat) (seg : TextSegment) :
    pushFlagE allocAll flag ⟨prev, some seg, stack, align, hasAlign, cnt⟩ =
      .ok ⟨seg :: prev,
           some ⟨"", some { dupTop stack with
             i_style_flags := (dupTop stack).i_style_flags ||| flag }⟩,
           { dupTop stack with
             i_style_flags := (dupTop stack).i_style_flags ||| flag } :: stack,
           align, hasAlign, cnt + 3⟩ := rfl

theorem pushFlag_all (flag : Nat) (l1 : List Char) (prev : List TextSegment)
    (stack : List TextStyle) (align : Nat) (hasAlign : Bool) (cnt : Nat)
    (seg : TextSegment) :
    pushFlag allocAll flag l1 ⟨prev, some seg, stack, align, hasAlign, cnt⟩ =
      .cont l1 ⟨seg :: prev,
                some ⟨"", some { dupTop stack with
                  i_style_flags := (dupTop stack).i_style_flags ||| flag }⟩,
                { dupTop stack with
                  i_style_flags := (dupTop stack).i_style_flags ||| flag } :: stack,
                align, hasAlign, cnt + 3⟩ := rfl

theorem pushFlagE_all_ex (flag : Nat) (st : LState) (hc : st.cur.isSome) :
    ∃ st1, pushFlagE allocAll flag st = .ok st1 ∧ st1.cur.isSome := by
  obtain ⟨prev, cur, stack, align, hasAlign, cnt⟩ := st
  cases hcur : cur with
  | none => rw [hcur] at hc; simp at hc
  | some seg =>
    subst hcur
    exact ⟨_, pushFlagE_all flag prev stack align hasAlign cnt seg, rfl⟩


theorem dropWhile_length_le (p : Char → Bool) (l : List Char) :
    (l.dropWhile p).length ≤ l.length :=
  (List.dropWhile_sublist p).length_le

/-- A successful `ConsumeAttribute` never moves the cursor backwards: the
returned cursor is a suffix of the input. -/
theorem ConsumeAttribute_le (o : Nat → Bool) (st : LState) (l : List Char) :
    ∀ n v l1 st1, ConsumeAttribute o st l = (some (n, v, l1), st1) →
      l1.length ≤ l.length := by
  intro n v l1 st1 h
  have hdrop : ∀ (x : List Char) (k : Nat), (x.drop k).length ≤ x.length := by
    intro x k
    rw [List.length_drop]
    omega
  unfold ConsumeAttribute allocOne at h
  simp only [] at h
  split at h
  · simp at h
  · split at h
    · split at h
      · simp at h
      · split at h
        · simp only [Prod.mk.injEq, Option.some.injEq] at h
          obtain ⟨⟨-, -, hl⟩, -⟩ := h
          subst hl
          refine le_trans (hdrop _ _) ?_
          refine le_trans (dropWhile_length_le _ _) ?_
          refine le_trans (dropWhile_length_le _ _) ?_
          refine le_trans (dropWhile_length_le _ _) ?_
          refine le_trans (hdrop _ _) ?_
          exact dropWhile_length_le _ _
        · simp at h
    · simp at h

/-- The font-attribute loop under the all-succeeding oracle: it cannot
crash (the pushed style is live), the live segment keeps a live style,
and the cursor only moves forward. -/
theorem fontAttrLoop_all : ∀ (fuel : Nat) (l : List Char) (prev : List TextSegment)
    (seg : TextSegment) (sty : TextStyle) (stack : List TextStyle) (align : Nat)
    (hasAlign : Bool) (cnt : Nat), seg.style = some sty →
    ∃ l2 prev2 seg2 sty2 stack2 cnt2,
      fontAttrLoop allocAll true fuel l ⟨prev, some seg, stack, align, hasAlign, cnt⟩ =
        .ok (l2, ⟨prev2, some seg2, stack2, align, hasAlign, cnt2⟩) ∧
      seg2.style = some sty2 ∧ l2.length ≤ l.length := by
  intro fuel
  induction fuel with
  | zero =>
    intro l prev seg sty stack align hasAlign cnt hsty
    exact ⟨l, prev, seg, sty, stack, cnt, rfl, hsty, le_refl _⟩
  | succ fuel ih =>
    intro l prev seg sty stack align hasAlign cnt hsty
    unfold fontAttrLoop
    rcases hca : ConsumeAttribute allocAll ⟨prev, some seg, stack, align, hasAlign, cnt⟩ l
      with ⟨r, st1⟩
    have hst1 := ConsumeAttribute_state allocAll ⟨prev, some seg, stack, align, hasAlign, cnt⟩ l
    rw [hca] at hst1
    obtain ⟨hprev1, hcur1, hstack1, halign1, hha1⟩ := hst1
    obtain ⟨prev1, cur1, stack1, align1, hasAlign1, cnt1⟩ := st1
    simp only [] at hprev1 hcur1 hstack1 halign1 hha1
    subst hprev1; subst hcur1; subst hstack1; subst halign1; subst hha1
    cases r with
    | none =>
      exact ⟨l, prev1, seg, sty, stack1, cnt1, rfl, hsty, le_refl _⟩
    | some triple =>
      obtain ⟨n, v, l1⟩ := triple
      have hle : l1.length ≤ l.length :=
        ConsumeAttribute_le allocAll ⟨prev1, some seg, stack1, align1, hasAlign1, cnt⟩ l
          n v l1 _ hca
      simp only []
      unfold applyAttr
      cases hset : attrSetter n v with
      | none =>
        obtain ⟨l2, prev2, seg2, sty2, stack2, cnt2, hrec, hsty2, hle2⟩ :=
          ih l1 prev1 seg sty stack1 align1 hasAlign1 cnt1 hsty
        exact ⟨l2, prev2, seg2, sty2, stack2, cnt2, hrec, hsty2, le_trans hle2 hle⟩
      | some f =>
        unfold mutateCurStyle
        simp only [hsty]
        cases stack1 with
        | nil =>
          obtain ⟨l2, prev2, seg2, sty2, stack2, cnt2, hrec, hsty2, hle2⟩ :=
            ih l1 prev1 { seg with style := some (f sty) } (f sty) [] align1 hasAlign1
              cnt1 rfl
          exact ⟨l2, prev2, seg2, sty2, stack2, cnt2, hrec, hsty2, le_trans hle2 hle⟩
        | cons s0 srest =>
          obtain ⟨l2, prev2, seg2, sty2, stack2, cnt2, hrec, hsty2, hle2⟩ :=
            ih l1 prev1 { seg with style := some (f sty) } (f sty) (f sty :: srest)
              align1 hasAlign1 cnt1 rfl
          exact ⟨l2, prev2, seg2, sty2, stack2, cnt2, hrec, hsty2, le_trans hle2 hle⟩



theorem strchrPos_mem {c : Char} : ∀ {l : List Char} {p : Nat},
    strchrPos l c = some p → c ∈ l := by
  intro l
  induction l with
  | nil => intro p h; simp [strchrPos] at h
  | cons a t ih =>
    intro p h
    unfold strchrPos at h
    split at h
    · rename_i ha; simp [ha]
    · simp only [Option.map_eq_some'] at h
      obtain ⟨q, hq, -⟩ := h
      exact List.mem_cons_of_mem a (ih hq)

theorem stepFont_all (l : List Char) (prev : List TextSegment) (stack : List TextStyle)
    (align : Nat) (hasAlign : Bool) (cnt : Nat) (seg : TextSegment) :
    ∃ l2 st2, stepFont allocAll l ⟨prev, some seg, stack, align, hasAlign, cnt⟩ =
      .cont l2 st2 ∧ st2.cur.isSome ∧ l2.length ≤ (l.drop 6).length := by
  unfold stepFont
  rw [NewTextSegmentPushStyle_all]
  simp only []
  obtain ⟨l2, prev2, seg2, sty2, stack2, cnt2, hloop, hsty2, hle⟩ :=
    fontAttrLoop_all ((l.drop 6).length + 1) (l.drop 6) (seg :: prev)
      ⟨"", some (dupTop stack)⟩ (dupTop stack) (dupTop stack :: stack) align hasAlign
      (cnt + 3) rfl
  rw [hloop]
  refine ⟨_, _, rfl, rfl, ?_⟩
  have hd : (l2.drop ((l2.takeWhile (· != '>')).length)).length ≤ l2.length := by
    rw [List.length_drop]
    omega
  exact le_trans hd hle

theorem strncaseeqC_head_ne (a c : Char) (t p' : List Char) (m : Nat)
    (hne : asciiLower a ≠ asciiLower c) :
    strncaseeqC (a :: t) (c :: p') (m + 1) = false := by
  unfold strncaseeqC
  simp [hne]

theorem stepClosing_all (t : List Char) (prev : List TextSegment) (stack : List TextStyle)
    (align : Nat) (hasAlign : Bool) (cnt : Nat) (seg : TextSegment) :
    stepClosing allocAll ('<' :: t) ⟨prev, some seg, stack, align, hasAlign, cnt⟩ =
      .cont t ⟨prev, some { seg with psz_text := seg.psz_text.push '<' },
               stack, align, hasAlign, cnt + 1⟩ := by
  have hm : (('<' :: t).takeWhile (· != '>')).length =
      (t.takeWhile (· != '>')).length + 1 := by
    simp [List.takeWhile_cons]
  unfold stepClosing
  simp only []
  rw [hm, strncaseeqC_head_ne '<' 'b' t [] _ (by decide),
      strncaseeqC_head_ne '<' 'i' t [] _ (by decide),
      strncaseeqC_head_ne '<' 'u' t [] _ (by decide),
      strncaseeqC_head_ne '<' 's' t [] _ (by decide)]
  rw [show fontName = 'f' :: ['o', 'n', 't'] from rfl,
      strncaseeqC_head_ne '<' 'f' t ['o', 'n', 't'] _ (by decide)]
  simp only [Bool.or_false]
  rfl

theorem stepBraceBS_all (l : List Char) (st : LState) (hg : braceBSGuard l = true) :
    ∃ l1 st1, stepBraceBS l st = .cont l1 st1 ∧ st1.cur = st.cur ∧
      l1.length < l.length := by
  have hs : (strchrPos l '\x7d').isSome = true := by
    simp only [braceBSGuard, Bool.and_eq_true] at hg
    exact hg.2
  obtain ⟨p, hp⟩ := Option.isSome_iff_exists.mp hs
  have hplt : p < l.length := strchrPos_lt hp
  unfold stepBraceBS
  simp only []
  rw [hp]
  refine ⟨_, _, rfl, ?_, ?_⟩
  · split <;> rfl
  · rw [List.length_drop]
    omega

theorem stepBraceGen_all (l : List Char) (st : LState) (hg : braceGenGuard l = true) :
    ∃ l1, stepBraceGen l st = .cont l1 st ∧ l1.length < l.length := by
  have hs : (strchrPos l '\x7d').isSome = true := by
    simp only [braceGenGuard, Bool.and_eq_true] at hg
    exact hg.2
  obtain ⟨p, hp⟩ := Option.isSome_iff_exists.mp hs
  have hplt : p < l.length := strchrPos_lt hp
  unfold stepBraceGen
  rw [hp]
  refine ⟨_, rfl, ?_⟩
  rw [List.length_drop]
  omega

theorem stepBraceY_all (l : List Char) (st : LState) (hg : braceYGuard l = true)
    (hc : st.cur.isSome = true) :
    ∃ l1 st1, stepBraceY allocAll l st = .cont l1 st1 ∧ st1.cur.isSome = true ∧
      l1.length < l.length := by
  have hg' := hg
  simp only [braceYGuard, Bool.and_eq_true, Bool.or_eq_true, beq_iff_eq] at hg'
  obtain ⟨⟨⟨h0, hy⟩, h2⟩, hsome⟩ := hg'
  obtain ⟨p0, hp0⟩ := Option.isSome_iff_exists.mp hsome
  have hmem : '\x7d' ∈ l := strchrPos_mem hp0
  have hmem3 : '\x7d' ∈ l.drop 3 := by
    refine mem_drop3_of_head_ne hmem ?_ ?_ ?_
    · rw [h0]; decide
    · rcases hy with hy | hy <;> rw [hy] <;> decide
    · rw [h2]; decide
  have h0len : 0 < l.length := cidx_ne_nul (by rw [h0]; decide)
  have ypush_step : ∀ (flag : Nat) (cond : Prop) (inst : Decidable cond)
      (lx : List Char) (stx : LState), stx.cur.isSome = true →
      ∃ kx stx1, (@yPush allocAll flag cond inst lx stx).2 = .ok stx1 ∧
        stx1.cur.isSome = true ∧ kx ≤ 1 ∧
        (@yPush allocAll flag cond inst lx stx).1 = lx.drop kx := by
    intro flag cond inst lx stx hcx
    unfold yPush
    split
    · obtain ⟨st1, hh1, hh2⟩ := pushFlagE_all_ex flag stx hcx
      exact ⟨1, st1, hh1, hh2, le_refl 1, rfl⟩
    · exact ⟨0, stx, rfl, hcx, by omega, rfl⟩
  obtain ⟨k1, st1, hy1, hc1, hk1, hl1⟩ :=
    ypush_step STYLE_ITALIC (cidx l 3 = 'i') inferInstance l st hc
  unfold stepBraceY
  simp only []
  rw [hy1]
  simp only []
  rw [hl1]
  obtain ⟨k2, st2, hy2, hc2, hk2, hl2⟩ :=
    ypush_step STYLE_BOLD (cidx (l.drop k1) 3 = 'b') inferInstance (l.drop k1) st1 hc1
  rw [hy2]
  simp only []
  rw [hl2]
  obtain ⟨k3, st3, hy3, hc3, hk3, hl3⟩ :=
    ypush_step STYLE_UNDERLINE (cidx ((l.drop k1).drop k2) 3 = 'u') inferInstance
      ((l.drop k1).drop k2) st2 hc2
  rw [hy3]
  simp only []
  rw [hl3]
  have hmemc : '\x7d' ∈ ((l.drop k1).drop k2).drop k3 := by
    rw [List.drop_drop, List.drop_drop]
    exact mem_drop_of_mem_drop_ge (by omega) hmem3
  obtain ⟨p, hp⟩ := Option.isSome_iff_exists.mp (strchrPos_isSome_of_mem hmemc)
  rw [hp]
  refine ⟨_, st3, rfl, hc3, ?_⟩
  rw [List.length_drop, List.length_drop, List.length_drop, List.length_drop]
  omega


/-- Under the all-succeeding oracle, every iteration on a non-empty
remainder continues with a live segment and a strictly shorter remainder:
no branch can crash, fail, or stall. -/
theorem step_all (l : List Char) (st : LState) (hne : l ≠ [])
    (hcur : st.cur.isSome = true) :
    ∃ l1 st1, step allocAll l st = .cont l1 st1 ∧ st1.cur.isSome = true ∧
      l1.length < l.length := by
  obtain ⟨a, t, rfl⟩ : ∃ a t, l = a :: t := by
    cases l with
    | nil => exact absurd rfl hne
    | cons a t => exact ⟨a, t, rfl⟩
  obtain ⟨prev, cur, stack, align, hasAlign, cnt⟩ := st
  obtain ⟨seg, hseg⟩ := Option.isSome_iff_exists.mp hcur
  simp only [] at hseg
  subst hseg
  unfold step
  split_ifs with h1 h2 h3 h4 h5
  · rw [appendChecked_all]
    exact ⟨_, _, rfl, rfl, length_drop_lt_cons _ _ 1 (by omega)⟩
  · have ha : a = '<' := by simpa [cidx, List.getD] using h2
    subst ha
    unfold stepLt
    split_ifs with hbr hb hi hu hs hfont hclose
    · rw [appendChecked_all]
      exact ⟨_, _, rfl, rfl, length_drop_lt_cons _ _ 5 (by omega)⟩
    · rw [pushFlag_all]
      exact ⟨_, _, rfl, rfl, length_drop_lt_cons _ _ 3 (by omega)⟩
    · rw [pushFlag_all]
      exact ⟨_, _, rfl, rfl, length_drop_lt_cons _ _ 3 (by omega)⟩
    · rw [pushFlag_all]
      exact ⟨_, _, rfl, rfl, length_drop_lt_cons _ _ 3 (by omega)⟩
    · rw [pushFlag_all]
      exact ⟨_, _, rfl, rfl, length_drop_lt_cons _ _ 3 (by omega)⟩
    · obtain ⟨l2, st2, hf, hc2, hle⟩ :=
        stepFont_all ('<' :: t) prev stack align hasAlign cnt seg
      refine ⟨l2, st2, hf, hc2, ?_⟩
      have hlt := length_drop_lt_cons '<' t 6 (by omega)
      omega
    · rw [stepClosing_all]
      refine ⟨_, _, rfl, rfl, ?_⟩
      simp only [List.length_cons]
      omega
    · rw [appendUnchecked_all]
      exact ⟨_, _, rfl, rfl, length_drop_lt_cons _ _ 1 (by omega)⟩
  · obtain ⟨l1, st1, hbs, hcpres, hlen⟩ :=
      stepBraceBS_all (a :: t) ⟨prev, some seg, stack, align, hasAlign, cnt⟩ h3
    refine ⟨l1, st1, hbs, ?_, hlen⟩
    rw [hcpres]
    rfl
  · exact stepBraceY_all (a :: t) ⟨prev, some seg, stack, align, hasAlign, cnt⟩ h4 rfl
  · obtain ⟨l1, hgen, hlen⟩ :=
      stepBraceGen_all (a :: t) ⟨prev, some seg, stack, align, hasAlign, cnt⟩ h5
    exact ⟨l1, _, hgen, rfl, hlen⟩
  · rw [appendUnchecked_all]
    exact ⟨_, _, rfl, rfl, length_drop_lt_cons _ _ 1 (by omega)⟩

/-- With sufficient fuel and a live segment, the loop always terminates
with status ok and a live segment. -/
theorem parseLoop_all : ∀ (fuel : Nat) (l : List Char) (st : LState),
    l.length < fuel → st.cur.isSome = true →
    ∃ stF, parseLoop allocAll fuel l st = (.ok, stF) ∧ stF.cur.isSome = true := by
  intro fuel
  induction fuel with
  | zero => intro l st h _; omega
  | succ fuel ih =>
    intro l st hlen hcur
    cases l with
    | nil => exact ⟨st, rfl, hcur⟩
    | cons a t =>
      obtain ⟨l1, st1, hstep, hcur1, hlt⟩ := step_all (a :: t) st (by simp) hcur
      simp only [parseLoop]
      rw [hstep]
      exact ih l1 st1 (by omega) hcur1

/-- C7: under an oracle where no allocation fails, `ParseSubtitles` never
returns NULL and never crashes: the first segment is created eagerly with
empty text (so the empty input yields exactly one empty segment with no
style), and every input yields a chain with at least one segment.  In this
embedding a chain is a `List TextSegment`, so it is acyclic and every
node's text is a `String` (never a NULL pointer) by construction. -/
theorem c7_parse_returns_nonempty_chain :
    (∀ a0 : Nat, ParseSubtitles allocAll a0 "" = (PResult.segs [⟨"", none⟩], a0)) ∧
    (∀ (s : String) (a0 : Nat),
      ∃ c, (ParseSubtitles allocAll a0 s).1 = PResult.segs c ∧ c ≠ []) := by
  constructor
  · intro a0; rfl
  · intro s a0
    obtain ⟨stF, hloop, hcur⟩ := parseLoop_all (s.data.length + 1) s.data
      ⟨[], some ⟨"", none⟩, [], a0, false, 1⟩ (by omega) rfl
    refine ⟨chainOf stF, ?_, ?_⟩
    · unfold ParseSubtitles
      simp only [allocAll, if_true]
      rw [hloop]
    · obtain ⟨segF, hsegF⟩ := Option.isSome_iff_exists.mp hcur
      unfold chainOf
      rw [hsegF]
      simp

/-- C8: a `<` that starts no recognized construct (not `<br/>`, `<b>`,
`<i>`, `<u>`, `<s>`, `<font ` - case-insensitively) makes the iteration
append exactly the literal `<` to the active segment and advance the cursor
by one character, whether or not the `</` shape matched (no closing-tag
name is ever recognized); so `<marquee>x</marquee>` degrades to literal
text character by character, one whole segment of plain text. -/
theorem c8_unknown_tag_emits_literal_lt :
    (∀ (t : List Char) (prev : List TextSegment) (stack : List TextStyle) (align : Nat)
        (hasAlign : Bool) (cnt : Nat) (seg : TextSegment),
        startsWithCI ('<' :: t) brPat = false → startsWithCI ('<' :: t) bTag = false →
        startsWithCI ('<' :: t) iTag = false → startsWithCI ('<' :: t) uTag = false →
        startsWithCI ('<' :: t) sTag = false → startsWithCI ('<' :: t) fontTag = false →
        step allocAll ('<' :: t) ⟨prev, some seg, stack, align, hasAlign, cnt⟩ =
          .cont t ⟨prev, some { seg with psz_text := seg.psz_text.push '<' },
                   stack, align, hasAlign, cnt + 1⟩) ∧
    ParseSubtitles allocAll 0 "<marquee>x</marquee>" =
      (PResult.segs [⟨"<marquee>x</marquee>", none⟩], 0) := by
  constructor
  · intro t prev stack align hasAlign cnt seg hbr hb hi hu hs hfont
    unfold step
    split_ifs with h1 h2 h3 h4 h5
    · exact absurd h1 (by rw [show cidx ('<' :: t) 0 = '<' from rfl]; decide)
    · unfold stepLt
      split_ifs with hbr' hb' hi' hu' hs' hfont' hclose'
      · rw [hbr] at hbr'; exact Bool.noConfusion hbr'
      · rw [hb] at hb'; exact Bool.noConfusion hb'
      · rw [hi] at hi'; exact Bool.noConfusion hi'
      · rw [hu] at hu'; exact Bool.noConfusion hu'
      · rw [hs] at hs'; exact Bool.noConfusion hs'
      · rw [hfont] at hfont'; exact Bool.noConfusion hfont'
      · exact stepClosing_all t prev stack align hasAlign cnt seg
      · rfl
    · exact absurd rfl h2
    · exact absurd rfl h2
    · exact absurd rfl h2
    · exact absurd rfl h2
  · decide

/-- Witness for `c8_unknown_tag_emits_literal_lt` on the remainder "<q>". -/
theorem c8_unknown_tag_emits_literal_lt_witness :
    step allocAll ('<' :: ['q', '>']) ⟨[], some ⟨"", none⟩, [], 0, false, 1⟩ =
      .cont ['q', '>'] ⟨[], some ⟨"<", none⟩, [], 0, false, 2⟩ := by
  have h := c8_unknown_tag_emits_literal_lt.1 ['q', '>'] [] [] 0 false 1 ⟨"", none⟩
    (by decide) (by decide) (by decide) (by decide) (by decide) (by decide)
  exact h

end Subsdec
